import Mathlib

/-!
Shallow embedding of the Poll Ledger & Tally Engine of the `vote` repository.
The definitions below are translated from the realtime-database variant of the
application (`submitVote`, `removeVoter`, `removeOption`, `recountVotes`,
`isClosed`, `baseVisible`, `isVisibleAdmin`, `isVisibleStudent`,
`getStudentKey`, `closeNow`, `reopen`).  JavaScript objects keyed by strings
are modelled as association lists in insertion order; timestamps are `Nat`
values passed in explicitly (the code calls `Date.now()`).
-/

namespace Vote

/-- `type Visibility = "always" | "hidden" | "deadline"` -/
inductive Visibility where
  | always
  | hidden
  | deadline
deriving DecidableEq, Repr

/-- `type Option = { id: string; label: string; votes: number }`.
Named `Opt` because `Option` is taken by the Lean core type. -/
structure Opt where
  id : String
  label : String
  votes : Nat
deriving DecidableEq, Repr

/-- `type Ballot = { ids: string[]; at: number; name?: string }` -/
structure Ballot where
  ids : List String
  at' : Nat
  name : Option String
deriving DecidableEq, Repr

/-- The poll aggregate stored at `polls/{pollId}` (see `makeDefaultState`).
`ballots` is the JS object `Record<string, Ballot>`, modelled as an
association list in insertion order; `createdAt` is omitted (never read). -/
structure Poll where
  title : String
  desc : String
  voteLimit : Nat
  options : List Opt
  ballots : List (String × Ballot)
  anonymous : Bool
  visibilityMode : Visibility
  deadlineAt : Option Nat
  expectedVoters : Nat
  manualClosed : Bool
  updatedAt : Nat
deriving DecidableEq, Repr

/-- JS `ballotsObj[key]`: first (and in practice only) entry with this key. -/
def lookupBallot : List (String × Ballot) → String → Option Ballot
  | [], _ => none
  | kb :: rest, key => if kb.1 = key then some kb.2 else lookupBallot rest key

/-- Truthiness of `ballotsObj[key]` (a ballot object is always truthy). -/
def hasKey (bs : List (String × Ballot)) (key : String) : Bool :=
  (lookupBallot bs key).isSome

/-- `const votedCount = Object.keys(ballots).length` -/
def votedCount (p : Poll) : Nat := p.ballots.length

/-- `const autoClosed = expectedVoters > 0 && votedCount >= expectedVoters` -/
def autoClosed (p : Poll) : Bool :=
  decide (0 < p.expectedVoters) && decide (p.expectedVoters ≤ votedCount p)

/-- `const isClosed = manualClosed || autoClosed` -/
def isClosed (p : Poll) : Bool := p.manualClosed || autoClosed p

/-- `const totalVotes = options.reduce((a, b) => a + (b?.votes ?? 0), 0)` -/
def totalVotes (p : Poll) : Nat := p.options.foldl (fun a b => a + b.votes) 0

/-- `baseVisible`: note that the source tests `if (!deadlineAt) return false`,
and in JavaScript `!0` is `true`, so a deadline timestamp of `0` behaves like
`null` (results stay hidden). -/
def baseVisible (mode : Visibility) (deadlineAt : Option Nat) (now : Nat) : Bool :=
  match mode with
  | .always => true
  | .hidden => false
  | .deadline =>
    match deadlineAt with
    | none => false
    | some t => if t = 0 then false else decide (t ≤ now)

/-- `const isVisibleAdmin = visibilityMode === "hidden" ? true : baseVisible` -/
def isVisibleAdmin (mode : Visibility) (deadlineAt : Option Nat) (now : Nat) : Bool :=
  if mode = .hidden then true else baseVisible mode deadlineAt now

/-- `const isVisibleStudent = baseVisible` -/
def isVisibleStudent (mode : Visibility) (deadlineAt : Option Nat) (now : Nat) : Bool :=
  baseVisible mode deadlineAt now

/-- JavaScript `String.prototype.trim`: strip leading and trailing whitespace.
Spelled out over the character list so that the kernel can evaluate it
(`String.trim` of the Lean core library agrees but does not reduce). -/
def jsTrim (s : String) : String :=
  String.mk (((s.data.dropWhile Char.isWhitespace).reverse.dropWhile Char.isWhitespace).reverse)

/-- `getStudentKey()`: in anonymous mode a per-poll device token persisted in
`localStorage` (passed in here as `deviceToken`); otherwise `voterName.trim()`. -/
def getStudentKey (anonymous : Bool) (deviceToken : String) (voterName : String) : String :=
  if anonymous then deviceToken else jsTrim voterName

/-- One `ids.forEach` step of `submitVote`:
`const idx = opts.findIndex((o) => o.id === id); if (idx >= 0) opts[idx].votes += 1` —
the first option whose id matches gets one more vote. -/
def bumpVote : List Opt → String → List Opt
  | [], _ => []
  | o :: os, i =>
    if o.id = i then { o with votes := o.votes + 1 } :: os else o :: bumpVote os i

/-- One `info.ids.forEach` step of `removeVoter`:
`opts[idx].votes = Math.max(0, (opts[idx].votes || 0) - 1)`.
Truncated `Nat` subtraction already floors at zero, matching `Math.max(0, ·)`. -/
def decVote : List Opt → String → List Opt
  | [], _ => []
  | o :: os, i =>
    if o.id = i then { o with votes := o.votes - 1 } :: os else o :: decVote os i

/-- The `countMap` computed by `recountVotes` / `removeOption`, read back at
one option id: total number of occurrences of `i` across all ballots. -/
def countOcc (bs : List (String × Ballot)) (i : String) : Nat :=
  (bs.map (fun kb => kb.2.ids.count i)).sum

/-- `recountVotes()` transaction body. -/
def recountVotes (p : Poll) (now : Nat) : Poll :=
  { p with
    options := p.options.map (fun o => { o with votes := countOcc p.ballots o.id }),
    updatedAt := now }

/-- `removeOption(id)` transaction body: drop the option, filter its id out of
every ballot, and recompute all vote counts from the filtered ballots. -/
def removeOption (p : Poll) (optId : String) (now : Nat) : Poll :=
  let next := p.options.filter (fun o => o.id ≠ optId)
  let newBallots := p.ballots.map
    (fun kb => (kb.1, { kb.2 with ids := kb.2.ids.filter (fun x => x ≠ optId) }))
  let fixedOptions := next.map (fun o => { o with votes := countOcc newBallots o.id })
  { p with options := fixedOptions, ballots := newBallots, updatedAt := now }

/-- Logical outcome of a `submitVote` call (the source signals the rejections
through early-returned alerts and the unchanged-transaction path). -/
inductive SubmitOutcome where
  | accepted
  | alreadyClosed
  | emptyKey
  | noSelection
  | duplicateVote
deriving DecidableEq, Repr

/-- `submitVote()`: the guard sequence plus the transaction body.
`selected.slice(0, data.voteLimit || 1)` is the over-limit clamp; the `|| 1`
treats a zero/absent vote limit as `1`. -/
def submitVote (p : Poll) (key : String) (selected : List String)
    (voterName : String) (now : Nat) : Poll × SubmitOutcome :=
  if isClosed p then (p, .alreadyClosed)
  else if key = "" then (p, .emptyKey)
  else if selected = [] then (p, .noSelection)
  else if hasKey p.ballots key then (p, .duplicateVote)
  else
    let ids := selected.take (if p.voteLimit = 0 then 1 else p.voteLimit)
    let newBallot : Ballot :=
      { ids := ids, at' := now,
        name := if p.anonymous then none
                else if jsTrim voterName = "" then none else some (jsTrim voterName) }
    ({ p with
        ballots := p.ballots ++ [(key, newBallot)],
        options := ids.foldl bumpVote p.options,
        updatedAt := now }, .accepted)

/-- `removeVoter(id)` transaction body. -/
def removeVoter (p : Poll) (key : String) (now : Nat) : Poll :=
  match lookupBallot p.ballots key with
  | none => p
  | some info =>
    { p with
      ballots := p.ballots.filter (fun kb => kb.1 ≠ key),
      options := info.ids.foldl decVote p.options,
      updatedAt := now }

/-- `const closeNow = () => patchPoll({ manualClosed: true })` -/
def closeNow (p : Poll) (now : Nat) : Poll :=
  { p with manualClosed := true, updatedAt := now }

/-- `const reopen = () => patchPoll({ manualClosed: false })` -/
def reopen (p : Poll) (now : Nat) : Poll :=
  { p with manualClosed := false, updatedAt := now }

/-! ### Derived notions used to state the claims -/

/-- The ids of the current options, in display order. -/
def optIds (os : List Opt) : List String := os.map (·.id)

/-- Vote count of the first option carrying a given id (`0` when absent). -/
def votesOf (os : List Opt) (i : String) : Nat :=
  match os.find? (fun o => o.id == i) with
  | some o => o.votes
  | none => 0

/-- Number of ballots whose `ids` list contains a given option id. -/
def numBallotsFor (bs : List (String × Ballot)) (i : String) : Nat :=
  (bs.filter (fun kb => kb.2.ids.contains i)).length

/-- Invariant I1 of the specification: every option's stored `votes` equals
the number of ballots selecting it. -/
def I1 (p : Poll) : Prop :=
  ∀ o ∈ p.options, o.votes = numBallotsFor p.ballots o.id

/-- Occurrence-counting variant of I1, matching the `countMap` computation of
the source; it coincides with `I1` when no ballot lists an id twice. -/
def I1occ (p : Poll) : Prop :=
  ∀ o ∈ p.options, o.votes = countOcc p.ballots o.id

/-- Structural well-formedness of a stored poll: option ids are distinct
(they are freshly generated uuids), ballot keys are distinct (JS object
keys), and no ballot lists the same option id twice (the selection UI
toggles a set). -/
def WF (p : Poll) : Prop :=
  (optIds p.options).Nodup ∧ (p.ballots.map (·.1)).Nodup ∧
    ∀ kb ∈ p.ballots, kb.2.ids.Nodup

/-- The ballot-affecting operations of the tally engine. -/
inductive Op where
  | submit (key : String) (selected : List String) (voterName : String) (now : Nat)
  | remove (key : String) (now : Nat)
  | removeOpt (optId : String) (now : Nat)
  | recount (now : Nat)

/-- Interpret one operation on a poll state. -/
def applyOp (p : Poll) : Op → Poll
  | .submit key sel nm now => (submitVote p key sel nm now).1
  | .remove key now => removeVoter p key now
  | .removeOpt i now => removeOption p i now
  | .recount now => recountVotes p now

/-- Interpret a sequence of operations, left to right. -/
def applyOps (p : Poll) (ops : List Op) : Poll := ops.foldl applyOp p

/-- A submission carries a duplicate-free selection (the UI builds the
selection as a toggled subset of the options). -/
def goodOp : Op → Prop
  | .submit _ sel _ _ => sel.Nodup
  | _ => True

instance : DecidablePred goodOp := by
  intro op
  cases op <;> simp only [goodOp] <;> infer_instance

instance (p : Poll) : Decidable (WF p) := by
  unfold WF
  infer_instance

instance (p : Poll) : Decidable (I1 p) := by
  unfold I1
  infer_instance

instance (p : Poll) : Decidable (I1occ p) := by
  unfold I1occ
  infer_instance

/-- Every operation of the sequence is well-formed. -/
def goodOps (ops : List Op) : Prop := ∀ op ∈ ops, goodOp op

instance (ops : List Op) : Decidable (goodOps ops) := by
  unfold goodOps
  infer_instance

/-- Sum, over the ballots, of the number of their ids that still name a
current option ("sum of ballot ids lengths restricted to ids present among
current options"). -/
def restrictedBallotSum (p : Poll) : Nat :=
  (p.ballots.map
    (fun kb => (kb.2.ids.filter (fun i => (optIds p.options).contains i)).length)).sum

/-- Maximal whitespace-free words of a character list, in order
(`acc` holds the reversed current word). -/
def wordsAux : List Char → List Char → List (List Char)
  | [], acc => if acc = [] then [] else [acc.reverse]
  | c :: cs, acc =>
    if c.isWhitespace then
      if acc = [] then wordsAux cs [] else acc.reverse :: wordsAux cs []
    else wordsAux cs (c :: acc)

/-- Join words with single spaces. -/
def joinWords : List (List Char) → List Char
  | [] => []
  | [w] => w
  | w :: ws => w ++ ' ' :: joinWords ws

/-- Modelled from the spec (for comparison with `getStudentKey`): "normalize
`submittedName` (trim, collapse internal whitespace, lowercase)". -/
def specNormalizeName (s : String) : String :=
  String.mk ((joinWords (wordsAux s.data [])).map Char.toLower)

/-- Modelled from the spec (for comparison with `getStudentKey`): the name
key with the empty-after-normalization sentinel `"anonymous"`. -/
def specNameKey (s : String) : String :=
  if specNormalizeName s = "" then "anonymous" else specNormalizeName s

/-- A three-option open poll with an empty ledger, used as concrete input. -/
def pollA : Poll :=
  { title := "t", desc := "d", voteLimit := 1,
    options := [⟨"A", "Option A", 0⟩, ⟨"B", "Option B", 0⟩, ⟨"C", "Option C", 0⟩],
    ballots := [], anonymous := false, visibilityMode := .always,
    deadlineAt := none, expectedVoters := 0, manualClosed := false, updatedAt := 0 }

/-- `pollA` after alice voted for option `A`, used as concrete input. -/
def pollB : Poll :=
  { pollA with
    options := [⟨"A", "Option A", 1⟩, ⟨"B", "Option B", 0⟩, ⟨"C", "Option C", 0⟩],
    ballots := [("alice", ⟨["A"], 1, some "alice"⟩)] }

/-- `pollB` with an auto-close threshold that is already met. -/
def pollC : Poll := { pollB with expectedVoters := 1 }

/-- A sample operation sequence exercising every ballot-affecting operation. -/
def opsW : List Op :=
  [.submit "alice" ["A", "C"] "Alice" 10, .submit "bob" ["B"] "bob" 11,
   .removeOpt "C" 12, .recount 13, .remove "alice" 14]

/-! ### Helper lemmas about the option-list transformers -/

theorem optIds_bumpVote (os : List Opt) (i : String) :
    optIds (bumpVote os i) = optIds os := by
  induction os with
  | nil => rfl
  | cons o os ih =>
    by_cases h : o.id = i <;> simp [bumpVote, optIds, h] <;> simpa [optIds] using ih

theorem optIds_decVote (os : List Opt) (i : String) :
    optIds (decVote os i) = optIds os := by
  induction os with
  | nil => rfl
  | cons o os ih =>
    by_cases h : o.id = i <;> simp [decVote, optIds, h] <;> simpa [optIds] using ih

theorem optIds_foldl_bump (sel : List String) (os : List Opt) :
    optIds (sel.foldl bumpVote os) = optIds os := by
  induction sel generalizing os with
  | nil => rfl
  | cons i sel ih => rw [List.foldl_cons, ih, optIds_bumpVote]

theorem optIds_foldl_dec (sel : List String) (os : List Opt) :
    optIds (sel.foldl decVote os) = optIds os := by
  induction sel generalizing os with
  | nil => rfl
  | cons i sel ih => rw [List.foldl_cons, ih, optIds_decVote]

theorem votesOf_bumpVote_ne (os : List Opt) (i j : String) (h : j ≠ i) :
    votesOf (bumpVote os j) i = votesOf os i := by
  induction os with
  | nil => rfl
  | cons o os ih =>
    by_cases ho : o.id = j
    · have hne : (o.id == i) = false := by rw [ho]; simp [h]
      simp only [bumpVote, if_pos ho]
      simp [votesOf, List.find?_cons, hne]
    · by_cases hi : o.id = i
      · simp only [bumpVote, if_neg ho]
        simp [votesOf, List.find?_cons, hi]
      · have hne : (o.id == i) = false := by simp [hi]
        simp only [bumpVote, if_neg ho]
        simp only [votesOf, List.find?_cons, hne, cond_false]
        exact ih

theorem votesOf_foldl_bump_not_mem (sel : List String) (os : List Opt) (i : String)
    (h : i ∉ sel) : votesOf (sel.foldl bumpVote os) i = votesOf os i := by
  induction sel generalizing os with
  | nil => rfl
  | cons j sel ih =>
    rw [List.foldl_cons, ih _ (fun hm => h (List.mem_cons_of_mem _ hm)),
      votesOf_bumpVote_ne]
    intro hj
    exact h (hj ▸ List.mem_cons_self _ _)

theorem bumpVote_eq_map (os : List Opt) (i : String) (h : (optIds os).Nodup) :
    bumpVote os i =
      os.map (fun o => if o.id = i then { o with votes := o.votes + 1 } else o) := by
  induction os with
  | nil => rfl
  | cons o os ih =>
    simp only [optIds, List.map_cons, List.nodup_cons] at h
    by_cases ho : o.id = i
    · subst ho
      have : os.map (fun o' => if o'.id = o.id then { o' with votes := o'.votes + 1 } else o') = os := by
        apply List.map_congr_left ?_ |>.trans (List.map_id os)
        intro o' ho'
        have : o'.id ≠ o.id := fun he => h.1 (he ▸ List.mem_map_of_mem (·.id) ho')
        simp [this]
      simp [bumpVote, this]
    · simp [bumpVote, ho, ih h.2]

theorem decVote_eq_map (os : List Opt) (i : String) (h : (optIds os).Nodup) :
    decVote os i =
      os.map (fun o => if o.id = i then { o with votes := o.votes - 1 } else o) := by
  induction os with
  | nil => rfl
  | cons o os ih =>
    simp only [optIds, List.map_cons, List.nodup_cons] at h
    by_cases ho : o.id = i
    · subst ho
      have : os.map (fun o' => if o'.id = o.id then { o' with votes := o'.votes - 1 } else o') = os := by
        apply List.map_congr_left ?_ |>.trans (List.map_id os)
        intro o' ho'
        have : o'.id ≠ o.id := fun he => h.1 (he ▸ List.mem_map_of_mem (·.id) ho')
        simp [this]
      simp [decVote, this]
    · simp [decVote, ho, ih h.2]

theorem map_votes_id (os : List Opt) (f : Opt → Nat) (h : ∀ o ∈ os, f o = o.votes) :
    os.map (fun o => { o with votes := f o }) = os := by
  induction os with
  | nil => rfl
  | cons o os ih =>
    rw [List.map_cons, h o (List.mem_cons_self _ _), ih (fun o' h' => h o' (List.mem_cons_of_mem _ h'))]

theorem foldl_bump_eq_map (sel : List String) (os : List Opt)
    (h : (optIds os).Nodup) :
    sel.foldl bumpVote os =
      os.map (fun o => { o with votes := o.votes + sel.count o.id }) := by
  induction sel generalizing os with
  | nil =>
    rw [List.foldl_nil]
    exact (map_votes_id os _ (fun o _ => by simp)).symm
  | cons i sel ih =>
    rw [List.foldl_cons, ih (bumpVote os i) ((optIds_bumpVote os i).symm ▸ h),
      bumpVote_eq_map os i h, List.map_map]
    apply List.map_congr_left
    intro o _
    by_cases ho : o.id = i
    · have hcnt : (i :: sel).count o.id = sel.count o.id + 1 := by
        rw [List.count_cons]; simp [ho]
      simp only [Function.comp_apply, if_pos ho, hcnt]
      simp only [Opt.mk.injEq, true_and]
      omega
    · have ho' : i ≠ o.id := fun he => ho he.symm
      have hcnt : (i :: sel).count o.id = sel.count o.id := by
        rw [List.count_cons]; simp [ho, ho']
      simp only [Function.comp_apply, if_neg ho, hcnt]

theorem foldl_dec_eq_map (sel : List String) (os : List Opt)
    (h : (optIds os).Nodup) :
    sel.foldl decVote os =
      os.map (fun o => { o with votes := o.votes - sel.count o.id }) := by
  induction sel generalizing os with
  | nil =>
    rw [List.foldl_nil]
    exact (map_votes_id os _ (fun o _ => by simp)).symm
  | cons i sel ih =>
    rw [List.foldl_cons, ih (decVote os i) ((optIds_decVote os i).symm ▸ h),
      decVote_eq_map os i h, List.map_map]
    apply List.map_congr_left
    intro o _
    by_cases ho : o.id = i
    · have hcnt : (i :: sel).count o.id = sel.count o.id + 1 := by
        rw [List.count_cons]; simp [ho]
      simp only [Function.comp_apply, if_pos ho, hcnt]
      simp only [Opt.mk.injEq, true_and]
      omega
    · have ho' : i ≠ o.id := fun he => ho he.symm
      have hcnt : (i :: sel).count o.id = sel.count o.id := by
        rw [List.count_cons]; simp [ho, ho']
      simp only [Function.comp_apply, if_neg ho, hcnt]

/-! ### Helper lemmas about the ballot ledger -/

theorem lookup_none_iff (bs : List (String × Ballot)) (key : String) :
    lookupBallot bs key = none ↔ ∀ kb ∈ bs, kb.1 ≠ key := by
  induction bs with
  | nil => simp [lookupBallot]
  | cons kb rest ih =>
    by_cases h : kb.1 = key
    · simp [lookupBallot, h]
    · simp [lookupBallot, h, ih]

theorem hasKey_false_iff (bs : List (String × Ballot)) (key : String) :
    hasKey bs key = false ↔ lookupBallot bs key = none := by
  unfold hasKey
  cases lookupBallot bs key <;> simp

theorem lookup_append_self (bs : List (String × Ballot)) (key : String) (b : Ballot)
    (h : lookupBallot bs key = none) :
    lookupBallot (bs ++ [(key, b)]) key = some b := by
  induction bs with
  | nil => simp [lookupBallot]
  | cons kb rest ih =>
    by_cases hk : kb.1 = key
    · simp [lookupBallot, hk] at h
    · simp only [lookupBallot, hk] at h
      simp [lookupBallot, hk, ih h]

theorem filter_ne_of_lookup_none (bs : List (String × Ballot)) (key : String)
    (h : lookupBallot bs key = none) :
    bs.filter (fun kb => kb.1 ≠ key) = bs := by
  apply List.filter_eq_self.mpr
  intro kb hm
  simpa using (lookup_none_iff bs key).mp h kb hm

theorem countOcc_nil (i : String) : countOcc [] i = 0 := rfl

theorem countOcc_cons (kb : String × Ballot) (bs : List (String × Ballot)) (i : String) :
    countOcc (kb :: bs) i = kb.2.ids.count i + countOcc bs i := by
  simp [countOcc]

theorem countOcc_append (bs bs' : List (String × Ballot)) (i : String) :
    countOcc (bs ++ bs') i = countOcc bs i + countOcc bs' i := by
  simp [countOcc]

theorem countOcc_filter_key (bs : List (String × Ballot)) (key : String)
    (info : Ballot) (i : String) (hnd : (bs.map (·.1)).Nodup)
    (hl : lookupBallot bs key = some info) :
    countOcc bs i = countOcc (bs.filter (fun kb => kb.1 ≠ key)) i + info.ids.count i := by
  induction bs with
  | nil => simp [lookupBallot] at hl
  | cons kb rest ih =>
    simp only [List.map_cons, List.nodup_cons] at hnd
    by_cases hk : kb.1 = key
    · simp only [lookupBallot, if_pos hk] at hl
      have hinfo : kb.2 = info := by injection hl
      have hrest : rest.filter (fun kb => kb.1 ≠ key) = rest := by
        apply List.filter_eq_self.mpr
        rintro ⟨a, b⟩ hm
        have h1 : a ≠ kb.1 := fun he => hnd.1 (he ▸ List.mem_map_of_mem (·.1) hm)
        have h2 : a ≠ key := by rw [← hk]; exact h1
        simp [h2]
      have hdrop : (kb :: rest).filter (fun kb => kb.1 ≠ key) = rest := by
        rw [List.filter_cons, if_neg (by simp [hk])]
        exact hrest
      rw [hdrop, countOcc_cons, hinfo]
      omega
    · simp only [lookupBallot, if_neg hk] at hl
      have hkeep : (kb :: rest).filter (fun kb => kb.1 ≠ key) =
          kb :: rest.filter (fun kb => kb.1 ≠ key) := by
        rw [List.filter_cons, if_pos (by simp [hk])]
      rw [hkeep, countOcc_cons, countOcc_cons, ih hnd.2 hl]
      omega

theorem countOcc_eq_numBallotsFor (bs : List (String × Ballot)) (i : String)
    (h : ∀ kb ∈ bs, kb.2.ids.Nodup) :
    countOcc bs i = numBallotsFor bs i := by
  induction bs with
  | nil => rfl
  | cons kb rest ih =>
    have hnd : kb.2.ids.Nodup := h kb (List.mem_cons_self _ _)
    have hcnt : kb.2.ids.count i = if kb.2.ids.contains i then 1 else 0 := by
      rw [List.count_eq_of_nodup hnd]
      by_cases hm : i ∈ kb.2.ids <;> simp [hm]
    rw [countOcc_cons, ih (fun kb' h' => h kb' (List.mem_cons_of_mem _ h'))]
    unfold numBallotsFor
    rw [List.filter_cons]
    by_cases hm : i ∈ kb.2.ids
    · have hc : kb.2.ids.contains i = true := by simpa using hm
      simp [hm, hc, hcnt, numBallotsFor]
      try omega
    · have hc : kb.2.ids.contains i = false := by simpa using hm
      simp [hm, hc, hcnt, numBallotsFor]
      try omega

/-! ### Sum lemmas -/

theorem foldl_add_votes (os : List Opt) (a : Nat) :
    os.foldl (fun x o => x + o.votes) a = a + (os.map (·.votes)).sum := by
  induction os generalizing a with
  | nil => simp
  | cons o os ih =>
    rw [List.foldl_cons, ih, List.map_cons, List.sum_cons]
    omega

theorem totalVotes_eq_sum (p : Poll) : totalVotes p = (p.options.map (·.votes)).sum := by
  unfold totalVotes
  rw [foldl_add_votes]
  omega

theorem sum_map_add {β : Type} (m : List β) (g h : β → Nat) :
    (m.map (fun b => g b + h b)).sum = (m.map g).sum + (m.map h).sum := by
  induction m with
  | nil => simp
  | cons b m ih =>
    simp only [List.map_cons, List.sum_cons, ih]
    omega

theorem sum_swap {α β : Type} (l : List α) (m : List β) (f : α → β → Nat) :
    (l.map (fun a => (m.map (fun b => f a b)).sum)).sum
      = (m.map (fun b => (l.map (fun a => f a b)).sum)).sum := by
  induction l with
  | nil => simp
  | cons a l ih =>
    simp only [List.map_cons, List.sum_cons, ih, ← sum_map_add]

theorem sum_indicator (m : List String) (pred : String → Bool) :
    (m.map (fun b => if pred b then 1 else 0)).sum = m.countP pred := by
  induction m with
  | nil => simp
  | cons b m ih =>
    rw [List.map_cons, List.sum_cons, ih, List.countP_cons]
    by_cases h : pred b <;> simp [h] <;> omega

theorem count_restrict (ids idsOpt : List String) (h : idsOpt.Nodup) :
    (idsOpt.map (fun i => ids.count i)).sum
      = (ids.filter (fun x => idsOpt.contains x)).length := by
  induction ids with
  | nil => simp
  | cons x rest ihr =>
    have hstep : (idsOpt.map (fun i => (x :: rest).count i)).sum
        = (idsOpt.map (fun i => rest.count i + if i == x then 1 else 0)).sum := by
      congr 1
      apply List.map_congr_left
      intro i _
      rw [List.count_cons]
      by_cases hix : i = x
      · simp only [hix, beq_self_eq_true, if_true]
      · have hxi : x ≠ i := fun he => hix he.symm
        simp [hix, hxi]
    rw [hstep, sum_map_add, ihr, sum_indicator]
    have hcount : idsOpt.countP (fun i => i == x) = idsOpt.count x := rfl
    rw [hcount, List.count_eq_of_nodup h, List.filter_cons]
    by_cases hm : x ∈ idsOpt
    · rw [if_pos hm, if_pos (by simpa using hm)]
      simp only [List.length_cons]
    · rw [if_neg hm, if_neg (by simpa using hm)]
      omega

theorem totalVotes_restricted (p : Poll) (hnd : (optIds p.options).Nodup)
    (h : I1occ p) : totalVotes p = restrictedBallotSum p := by
  rw [totalVotes_eq_sum]
  have h1 : p.options.map (·.votes) = p.options.map (fun o => countOcc p.ballots o.id) := by
    apply List.map_congr_left
    intro o ho
    exact h o ho
  have h2 : p.options.map (fun o => countOcc p.ballots o.id)
      = (optIds p.options).map (fun i => countOcc p.ballots i) := by
    unfold optIds
    rw [List.map_map]
    rfl
  rw [h1, h2]
  unfold countOcc restrictedBallotSum
  rw [sum_swap]
  congr 1
  apply List.map_congr_left
  intro kb _
  exact count_restrict kb.2.ids (optIds p.options) hnd

/-! ### State equations for the operations -/

theorem removeOption_def (p : Poll) (optId : String) (now : Nat) :
    removeOption p optId now =
      { p with
        options := (p.options.filter (fun o => o.id ≠ optId)).map
          (fun o => { o with
            votes := countOcc (p.ballots.map
              (fun kb => (kb.1, { kb.2 with ids := kb.2.ids.filter (fun x => x ≠ optId) }))) o.id }),
        ballots := p.ballots.map
          (fun kb => (kb.1, { kb.2 with ids := kb.2.ids.filter (fun x => x ≠ optId) })),
        updatedAt := now } := rfl

theorem submitVote_accepted_state (p : Poll) (key : String) (sel : List String)
    (nm : String) (now : Nat) (hc : isClosed p = false) (hk : key ≠ "")
    (hs : sel ≠ []) (hnew : hasKey p.ballots key = false) :
    submitVote p key sel nm now =
      ({ p with
          ballots := p.ballots ++
            [(key, ⟨sel.take (if p.voteLimit = 0 then 1 else p.voteLimit), now,
              if p.anonymous then none
              else if jsTrim nm = "" then none else some (jsTrim nm)⟩)],
          options := (sel.take (if p.voteLimit = 0 then 1 else p.voteLimit)).foldl
            bumpVote p.options,
          updatedAt := now }, .accepted) := by
  simp [submitVote, hc, hk, hs, hnew]

/-! ### Preservation of the tally invariant -/

theorem WF_I1occ_insert (p : Poll) (key : String) (taken : List String) (b : Ballot)
    (now : Nat) (hb : b.ids = taken) (hwf : WF p) (h1 : I1occ p) (hnd : taken.Nodup)
    (hnew : lookupBallot p.ballots key = none) :
    WF { p with
          ballots := p.ballots ++ [(key, b)],
          options := taken.foldl bumpVote p.options,
          updatedAt := now } ∧
    I1occ { p with
          ballots := p.ballots ++ [(key, b)],
          options := taken.foldl bumpVote p.options,
          updatedAt := now } := by
  obtain ⟨hwo, hwk, hwi⟩ := hwf
  constructor
  · refine ⟨?_, ?_, ?_⟩
    · show (optIds (taken.foldl bumpVote p.options)).Nodup
      rw [optIds_foldl_bump]
      exact hwo
    · show ((p.ballots ++ [(key, b)]).map (·.1)).Nodup
      rw [List.map_append]
      rw [List.nodup_append]
      refine ⟨hwk, List.nodup_singleton _, ?_⟩
      intro a ha hb'
      simp only [List.map_cons, List.map_nil, List.mem_singleton] at hb'
      obtain ⟨kb, hkb, rfl⟩ := List.mem_map.mp ha
      exact (lookup_none_iff _ _).mp hnew kb hkb hb'
    · intro kb hkb
      rcases List.mem_append.mp hkb with hold | hnew'
      · exact hwi kb hold
      · simp only [List.mem_singleton] at hnew'
        subst hnew'
        simpa [hb] using hnd
  · intro o' ho'
    show o'.votes = countOcc (p.ballots ++ [(key, b)]) o'.id
    rw [foldl_bump_eq_map taken p.options hwo] at ho'
    obtain ⟨o, ho, rfl⟩ := List.mem_map.mp ho'
    show o.votes + taken.count o.id = countOcc (p.ballots ++ [(key, b)]) o.id
    rw [countOcc_append, h1 o ho]
    have : countOcc [(key, b)] o.id = taken.count o.id := by
      simp [countOcc, hb]
    rw [this]

theorem removeVoter_none (p : Poll) (key : String) (now : Nat)
    (hl : lookupBallot p.ballots key = none) : removeVoter p key now = p := by
  unfold removeVoter
  rw [hl]

theorem removeVoter_some (p : Poll) (key : String) (now : Nat) (info : Ballot)
    (hl : lookupBallot p.ballots key = some info) :
    removeVoter p key now =
      { p with
        ballots := p.ballots.filter (fun kb => kb.1 ≠ key),
        options := info.ids.foldl decVote p.options,
        updatedAt := now } := by
  unfold removeVoter
  rw [hl]

theorem WF_I1occ_removeVoter (p : Poll) (key : String) (now : Nat)
    (hwf : WF p) (h1 : I1occ p) :
    WF (removeVoter p key now) ∧ I1occ (removeVoter p key now) := by
  obtain ⟨hwo, hwk, hwi⟩ := hwf
  cases hl : lookupBallot p.ballots key with
  | none =>
    rw [removeVoter_none p key now hl]
    exact ⟨⟨hwo, hwk, hwi⟩, h1⟩
  | some info =>
    rw [removeVoter_some p key now info hl]
    constructor
    · refine ⟨?_, ?_, ?_⟩
      · show (optIds (info.ids.foldl decVote p.options)).Nodup
        rw [optIds_foldl_dec]
        exact hwo
      · show ((p.ballots.filter (fun kb => kb.1 ≠ key)).map (·.1)).Nodup
        exact hwk.sublist
          (List.Sublist.map (fun kb : String × Ballot => kb.1)
            (List.filter_sublist p.ballots))
      · intro kb hkb
        exact hwi kb (List.mem_of_mem_filter hkb)
    · intro o' ho'
      show o'.votes = countOcc (p.ballots.filter (fun kb => kb.1 ≠ key)) o'.id
      rw [foldl_dec_eq_map info.ids p.options hwo] at ho'
      obtain ⟨o, ho, rfl⟩ := List.mem_map.mp ho'
      show o.votes - info.ids.count o.id
        = countOcc (p.ballots.filter (fun kb => kb.1 ≠ key)) o.id
      have heq := countOcc_filter_key p.ballots key info o.id hwk hl
      rw [h1 o ho]
      omega

theorem WF_I1occ_removeOption (p : Poll) (optId : String) (now : Nat)
    (hwf : WF p) : WF (removeOption p optId now) ∧ I1occ (removeOption p optId now) := by
  obtain ⟨hwo, hwk, hwi⟩ := hwf
  rw [removeOption_def]
  constructor
  · refine ⟨?_, ?_, ?_⟩
    · show (optIds ((p.options.filter (fun o => o.id ≠ optId)).map _)).Nodup
      unfold optIds
      rw [List.map_map]
      have : ((p.options.filter (fun o => o.id ≠ optId)).map (·.id)).Nodup :=
        hwo.sublist
          (List.Sublist.map (fun o : Opt => o.id) (List.filter_sublist p.options))
      simpa [Function.comp] using this
    · rw [List.map_map]
      simpa [Function.comp] using hwk
    · intro kb hkb
      obtain ⟨kb', hkb', rfl⟩ := List.mem_map.mp hkb
      exact (hwi kb' hkb').filter _
  · intro o' ho'
    obtain ⟨o, ho, rfl⟩ := List.mem_map.mp ho'
    rfl

theorem WF_I1occ_recount (p : Poll) (now : Nat) (hwf : WF p) :
    WF (recountVotes p now) ∧ I1occ (recountVotes p now) := by
  obtain ⟨hwo, hwk, hwi⟩ := hwf
  unfold recountVotes
  constructor
  · refine ⟨?_, hwk, hwi⟩
    show (optIds (p.options.map _)).Nodup
    unfold optIds
    rw [List.map_map]
    simpa [Function.comp] using hwo
  · intro o' ho'
    obtain ⟨o, ho, rfl⟩ := List.mem_map.mp ho'
    rfl

theorem WF_I1occ_applyOp (p : Poll) (op : Op) (hwf : WF p) (h1 : I1occ p)
    (hg : goodOp op) : WF (applyOp p op) ∧ I1occ (applyOp p op) := by
  cases op with
  | submit key sel nm now =>
    show WF (submitVote p key sel nm now).1 ∧ I1occ (submitVote p key sel nm now).1
    by_cases hc : isClosed p = true
    · have heq : submitVote p key sel nm now = (p, .alreadyClosed) := by
        unfold submitVote; rw [if_pos hc]
      rw [heq]; exact ⟨hwf, h1⟩
    · replace hc : isClosed p = false := by simpa using hc
      by_cases hk : key = ""
      · have heq : submitVote p key sel nm now = (p, .emptyKey) := by
          unfold submitVote; rw [if_neg (by simp [hc]), if_pos hk]
        rw [heq]; exact ⟨hwf, h1⟩
      · by_cases hs : sel = []
        · have heq : submitVote p key sel nm now = (p, .noSelection) := by
            unfold submitVote; rw [if_neg (by simp [hc]), if_neg hk, if_pos hs]
          rw [heq]; exact ⟨hwf, h1⟩
        · by_cases hdup : hasKey p.ballots key = true
          · have heq : submitVote p key sel nm now = (p, .duplicateVote) := by
              unfold submitVote
              rw [if_neg (by simp [hc]), if_neg hk, if_neg hs, if_pos hdup]
            rw [heq]; exact ⟨hwf, h1⟩
          · replace hdup : hasKey p.ballots key = false := by simpa using hdup
            rw [submitVote_accepted_state p key sel nm now hc hk hs hdup]
            exact WF_I1occ_insert p key _ _ now rfl hwf h1
              (hg.sublist (List.take_sublist _ _))
              ((hasKey_false_iff _ _).mp hdup)
  | remove key now => exact WF_I1occ_removeVoter p key now hwf h1
  | removeOpt i now => exact WF_I1occ_removeOption p i now hwf
  | recount now => exact WF_I1occ_recount p now hwf

theorem WF_I1occ_applyOps (ops : List Op) (p : Poll) (hwf : WF p) (h1 : I1occ p)
    (hg : goodOps ops) : WF (applyOps p ops) ∧ I1occ (applyOps p ops) := by
  induction ops generalizing p with
  | nil => exact ⟨hwf, h1⟩
  | cons op ops ih =>
    have hstep := WF_I1occ_applyOp p op hwf h1 (hg op (List.mem_cons_self _ _))
    exact ih (applyOp p op) hstep.1 hstep.2
      (fun op' h' => hg op' (List.mem_cons_of_mem _ h'))

theorem I1_iff_I1occ (p : Poll) (hids : ∀ kb ∈ p.ballots, kb.2.ids.Nodup) :
    I1 p ↔ I1occ p := by
  unfold I1 I1occ
  apply forall_congr'
  intro o
  apply imp_congr Iff.rfl
  rw [countOcc_eq_numBallotsFor p.ballots o.id hids]

/-! ### Claim theorems -/

/-- C1: starting from a well-formed poll satisfying I1, any sequence of
`submitVote` / `removeVoter` / `removeOption` / `recountVotes` operations
(with duplicate-free selections) preserves I1 — every option's `votes` equals
the number of ballots whose ids contain that option's id — and the sum of
option votes equals the sum of ballot id-list lengths restricted to ids still
present among current options.  Every initial segment of a good sequence is a
good sequence, so instantiating `ops` at each such segment yields the
invariant after each operation. -/
theorem c1_tally_consistency (p : Poll) (ops : List Op)
    (hwf : WF p) (h1 : I1 p) (hg : goodOps ops) :
    I1 (applyOps p ops) ∧
      totalVotes (applyOps p ops) = restrictedBallotSum (applyOps p ops) := by
  have h1o : I1occ p := (I1_iff_I1occ p hwf.2.2).mp h1
  have hres := WF_I1occ_applyOps ops p hwf h1o hg
  refine ⟨(I1_iff_I1occ _ hres.1.2.2).mpr hres.2, ?_⟩
  exact totalVotes_restricted _ hres.1.1 hres.2

/-- Witness for C1 at a concrete poll and operation sequence. -/
theorem c1_tally_consistency_witness :
    WF pollA ∧ I1 pollA ∧ goodOps opsW ∧
      (I1 (applyOps pollA opsW) ∧
        totalVotes (applyOps pollA opsW) = restrictedBallotSum (applyOps pollA opsW)) :=
  ⟨by decide, by decide, by decide,
    c1_tally_consistency pollA opsW (by decide) (by decide) (by decide)⟩

/-- C2: when the ledger already contains the voter key, `submitVote` leaves
the poll state completely unchanged, and — whenever the call reaches the
ledger check (the poll is open, the key nonempty, the selection nonempty) —
it reports the duplicate-vote rejection. -/
theorem c2_duplicate_rejection (p : Poll) (key : String) (sel : List String)
    (nm : String) (now : Nat) (hdup : hasKey p.ballots key = true) :
    (submitVote p key sel nm now).1 = p ∧
      (isClosed p = false → key ≠ "" → sel ≠ [] →
        (submitVote p key sel nm now).2 = SubmitOutcome.duplicateVote) := by
  constructor
  · unfold submitVote
    by_cases hc : isClosed p = true
    · rw [if_pos hc]
    · rw [if_neg hc]
      by_cases hk : key = ""
      · rw [if_pos hk]
      · rw [if_neg hk]
        by_cases hs : sel = []
        · rw [if_pos hs]
        · rw [if_neg hs, if_pos hdup]
  · intro hc hk hs
    unfold submitVote
    rw [if_neg (by simp [hc]), if_neg hk, if_neg hs, if_pos hdup]

/-- Witness for C2: alice submitting twice. -/
theorem c2_duplicate_rejection_witness :
    hasKey pollB.ballots "alice" = true ∧
      ((submitVote pollB "alice" ["B"] "alice" 5).1 = pollB ∧
        (isClosed pollB = false → "alice" ≠ "" → (["B"] : List String) ≠ [] →
          (submitVote pollB "alice" ["B"] "alice" 5).2 = SubmitOutcome.duplicateVote)) :=
  ⟨by decide, c2_duplicate_rejection pollB "alice" ["B"] "alice" 5 (by decide)⟩

/-- C3: a closed poll rejects every submission with the already-closed outcome
and is left unchanged; after `reopen`, if the auto-close condition still
holds, submissions are still rejected the same way. -/
theorem c3_closed_blocks (p : Poll) (key : String) (sel : List String)
    (nm : String) (now now2 : Nat) (hc : isClosed p = true) :
    submitVote p key sel nm now = (p, SubmitOutcome.alreadyClosed) ∧
      (autoClosed p = true →
        submitVote (reopen p now2) key sel nm now
          = (reopen p now2, SubmitOutcome.alreadyClosed)) := by
  constructor
  · unfold submitVote; rw [if_pos hc]
  · intro ha
    have hc2 : isClosed (reopen p now2) = true := by
      rw [show isClosed (reopen p now2) = autoClosed p from rfl, ha]
    unfold submitVote
    rw [if_pos hc2]

/-- Witness for C3 at a poll closed by its met auto-close threshold. -/
theorem c3_closed_blocks_witness :
    isClosed pollC = true ∧
      (submitVote pollC "carol" ["A"] "carol" 7 = (pollC, SubmitOutcome.alreadyClosed) ∧
        (autoClosed pollC = true →
          submitVote (reopen pollC 8) "carol" ["A"] "carol" 7
            = (reopen pollC 8, SubmitOutcome.alreadyClosed))) :=
  ⟨by decide, c3_closed_blocks pollC "carol" ["A"] "carol" 7 8 (by decide)⟩

/-- C4: the closing predicate is exactly
`manualClosed OR (expectedVoters > 0 AND ledger size ≥ expectedVoters)`;
`closeNow` sets and `reopen` clears `manualClosed`; and after `reopen` the
poll still evaluates as closed whenever the threshold remains met. -/
theorem c4_closing_predicate (p : Poll) (now : Nat) :
    isClosed p = (p.manualClosed ||
        (decide (0 < p.expectedVoters) && decide (p.expectedVoters ≤ votedCount p))) ∧
      (closeNow p now).manualClosed = true ∧
      (reopen p now).manualClosed = false ∧
      (0 < p.expectedVoters → p.expectedVoters ≤ votedCount p →
        isClosed (reopen p now) = true) := by
  refine ⟨rfl, rfl, rfl, ?_⟩
  intro h1 h2
  rw [show isClosed (reopen p now) = autoClosed p from rfl]
  simp only [autoClosed, Bool.and_eq_true, decide_eq_true_eq]
  exact ⟨h1, h2⟩

/-- Witness for C4: the reopen fallback at a poll with a met threshold. -/
theorem c4_closing_predicate_witness :
    0 < pollC.expectedVoters ∧ pollC.expectedVoters ≤ votedCount pollC ∧
      isClosed (reopen pollC 3) = true :=
  ⟨by decide, by decide, (c4_closing_predicate pollC 3).2.2.2 (by decide) (by decide)⟩

theorem optIds_map_votes (os : List Opt) (f : Opt → Nat) :
    optIds (os.map (fun o => { o with votes := f o })) = optIds os := by
  unfold optIds
  rw [List.map_map]
  rfl

theorem recount_of_counted (p : Poll) (now : Nat)
    (h : ∀ o ∈ p.options, o.votes = countOcc p.ballots o.id) :
    recountVotes p now = { p with updatedAt := now } := by
  unfold recountVotes
  have hmap : p.options.map (fun o => { o with votes := countOcc p.ballots o.id })
      = p.options := map_votes_id p.options _ (fun o ho => (h o ho).symm)
  rw [hmap]

/-- C5: an open-poll submission with a fresh nonempty key whose selection is
longer than the vote limit is accepted; the stored ballot keeps only the
first `voteLimit` ids, and any option id outside that kept initial segment —
in particular every silently dropped excess id — keeps its previous vote
count. -/
theorem c5_overlimit_truncation (p : Poll) (key : String) (sel : List String)
    (nm : String) (now : Nat) (hc : isClosed p = false) (hk : key ≠ "")
    (hnew : hasKey p.ballots key = false) (hlim : 0 < p.voteLimit)
    (hover : p.voteLimit < sel.length) :
    (submitVote p key sel nm now).2 = SubmitOutcome.accepted ∧
      lookupBallot (submitVote p key sel nm now).1.ballots key =
        some ⟨sel.take p.voteLimit, now,
          if p.anonymous then none
          else if jsTrim nm = "" then none else some (jsTrim nm)⟩ ∧
      (∀ i, i ∉ sel.take p.voteLimit →
        votesOf (submitVote p key sel nm now).1.options i = votesOf p.options i) := by
  have hs : sel ≠ [] := by
    intro h
    rw [h] at hover
    simp at hover
  have heff : (if p.voteLimit = 0 then 1 else p.voteLimit) = p.voteLimit :=
    if_neg (Nat.pos_iff_ne_zero.mp hlim)
  rw [submitVote_accepted_state p key sel nm now hc hk hs hnew, heff]
  refine ⟨rfl, ?_, ?_⟩
  · exact lookup_append_self _ _ _ ((hasKey_false_iff _ _).mp hnew)
  · intro i hi
    exact votesOf_foldl_bump_not_mem _ _ _ hi

/-- Witness for C5: vote limit 1, two selected ids, the excess id `B` keeps
its count. -/
theorem c5_overlimit_truncation_witness :
    isClosed pollA = false ∧ "dave" ≠ "" ∧ hasKey pollA.ballots "dave" = false ∧
      0 < pollA.voteLimit ∧ pollA.voteLimit < (["A", "B"] : List String).length ∧
      (submitVote pollA "dave" ["A", "B"] "dave" 9).2 = SubmitOutcome.accepted ∧
      lookupBallot (submitVote pollA "dave" ["A", "B"] "dave" 9).1.ballots "dave" =
        some ⟨(["A", "B"] : List String).take pollA.voteLimit, 9,
          if pollA.anonymous then none
          else if jsTrim "dave" = "" then none else some (jsTrim "dave")⟩ ∧
      "B" ∉ (["A", "B"] : List String).take pollA.voteLimit ∧
      votesOf (submitVote pollA "dave" ["A", "B"] "dave" 9).1.options "B"
        = votesOf pollA.options "B" :=
  ⟨by decide, by decide, by decide, by decide, by decide,
    (c5_overlimit_truncation pollA "dave" ["A", "B"] "dave" 9
      (by decide) (by decide) (by decide) (by decide) (by decide)).1,
    (c5_overlimit_truncation pollA "dave" ["A", "B"] "dave" 9
      (by decide) (by decide) (by decide) (by decide) (by decide)).2.1,
    by decide,
    (c5_overlimit_truncation pollA "dave" ["A", "B"] "dave" 9
      (by decide) (by decide) (by decide) (by decide) (by decide)).2.2 "B" (by decide)⟩

/-- C6: after removing an option, no ballot references it any more, the
option list no longer contains it, and recounting the resulting poll changes
nothing beyond the `updatedAt` stamp it always writes. -/
theorem c6_option_removal_purges (p : Poll) (x : String) (now now2 : Nat) :
    (∀ kb ∈ (removeOption p x now).ballots, x ∉ kb.2.ids) ∧
      (∀ o ∈ (removeOption p x now).options, o.id ≠ x) ∧
      recountVotes (removeOption p x now) now2
        = { removeOption p x now with updatedAt := now2 } := by
  refine ⟨?_, ?_, ?_⟩
  · intro kb hkb
    rw [removeOption_def] at hkb
    obtain ⟨kb', _, rfl⟩ := List.mem_map.mp hkb
    intro hx
    have := List.of_mem_filter hx
    simp at this
  · intro o ho
    rw [removeOption_def] at ho
    obtain ⟨o', ho', rfl⟩ := List.mem_map.mp ho
    have := List.of_mem_filter ho'
    simpa using this
  · apply recount_of_counted
    intro o' ho'
    rw [removeOption_def] at ho'
    obtain ⟨o, ho, rfl⟩ := List.mem_map.mp ho'
    rfl

/-- Witness for C6 at a concrete poll with a recorded ballot for `A`. -/
theorem c6_option_removal_purges_witness :
    (removeOption pollB "A" 20).ballots.all (fun kb => !(kb.2.ids.contains "A")) = true ∧
      (removeOption pollB "A" 20).options.all (fun o => o.id != "A") = true ∧
      recountVotes (removeOption pollB "A" 20) 21
        = { removeOption pollB "A" 20 with updatedAt := 21 } :=
  ⟨by decide, by decide, (c6_option_removal_purges pollB "A" 20 21).2.2⟩

/-- C8: recounting is idempotent — a second recount (at any later time)
produces exactly the state a single recount at that time would — and a
recount keeps the ballot ledger and the options' ids, labels and order
untouched. -/
theorem c8_recount_idempotent (p : Poll) (n1 n2 : Nat) :
    recountVotes (recountVotes p n1) n2 = recountVotes p n2 ∧
      (recountVotes p n1).ballots = p.ballots ∧
      (recountVotes p n1).options.map (fun o => (o.id, o.label))
        = p.options.map (fun o => (o.id, o.label)) := by
  refine ⟨?_, rfl, ?_⟩
  · have h' : ∀ o ∈ (recountVotes p n1).options,
        o.votes = countOcc (recountVotes p n1).ballots o.id := by
      intro o' ho'
      obtain ⟨o, ho, rfl⟩ := List.mem_map.mp ho'
      rfl
    rw [recount_of_counted (recountVotes p n1) n2 h']
    unfold recountVotes
    rfl
  · unfold recountVotes
    rw [List.map_map]
    apply List.map_congr_left
    intro o _
    rfl

/-- Witness for C8 at a concrete poll. -/
theorem c8_recount_idempotent_witness :
    recountVotes (recountVotes pollB 30) 31 = recountVotes pollB 31 ∧
      (recountVotes pollB 30).ballots = pollB.ballots ∧
      (recountVotes pollB 30).options.map (fun o => (o.id, o.label))
        = pollB.options.map (fun o => (o.id, o.label)) :=
  c8_recount_idempotent pollB 30 31

/-- C7 counterexample: the claim reads "for mode deadline ... otherwise true
exactly when now ≥ deadlineAt", which at `deadlineAt = some 0`, `now = 5`
predicts `true`; the code's `if (!deadlineAt) return false` treats the
timestamp `0` like `null` and yields `false`. -/
theorem c7_visibility_counterexample :
    ¬ (baseVisible Visibility.deadline (some 0) 5 = decide ((5 : Nat) ≥ 0)) := by
  decide

/-- C7 (amended): results visibility is a pure function of
`(visibilityMode, deadlineAt, now, audience)`: `baseVisible` is true for mode
always, false for mode hidden, and for mode deadline false when `deadlineAt`
is null or `0` (both falsy in JS) and otherwise true exactly when
`now ≥ deadlineAt`; `studentVisible` equals `baseVisible` while
`adminVisible` is true in mode hidden and equals `baseVisible` otherwise —
so in mode hidden the admin sees results and the student never does,
independent of time. -/
theorem c7_visibility_split (m : Visibility) (d : Option Nat) (t now : Nat)
    (ht : t ≠ 0) (hm : m ≠ Visibility.hidden) :
    baseVisible Visibility.always d now = true ∧
      baseVisible Visibility.hidden d now = false ∧
      baseVisible Visibility.deadline none now = false ∧
      baseVisible Visibility.deadline (some 0) now = false ∧
      baseVisible Visibility.deadline (some t) now = decide (t ≤ now) ∧
      isVisibleStudent m d now = baseVisible m d now ∧
      isVisibleStudent Visibility.hidden d now = false ∧
      isVisibleAdmin Visibility.hidden d now = true ∧
      isVisibleAdmin m d now = baseVisible m d now := by
  refine ⟨rfl, rfl, rfl, rfl, ?_, rfl, rfl, rfl, ?_⟩
  · show (if t = 0 then false else decide (t ≤ now)) = decide (t ≤ now)
    rw [if_neg ht]
  · unfold isVisibleAdmin
    rw [if_neg hm]

/-- Witness for C7 (amended) at concrete mode and times. -/
theorem c7_visibility_split_witness :
    (7 : Nat) ≠ 0 ∧ Visibility.always ≠ Visibility.hidden ∧
      (baseVisible Visibility.always none 9 = true ∧
        baseVisible Visibility.hidden none 9 = false ∧
        baseVisible Visibility.deadline none 9 = false ∧
        baseVisible Visibility.deadline (some 0) 9 = false ∧
        baseVisible Visibility.deadline (some 7) 9 = decide (7 ≤ 9) ∧
        isVisibleStudent Visibility.always none 9 = baseVisible Visibility.always none 9 ∧
        isVisibleStudent Visibility.hidden none 9 = false ∧
        isVisibleAdmin Visibility.hidden none 9 = true ∧
        isVisibleAdmin Visibility.always none 9 = baseVisible Visibility.always none 9) :=
  ⟨by decide, by decide,
    c7_visibility_split Visibility.always none 7 9 (by decide) (by decide)⟩

/-- C9 counterexample: the identity resolver does not collapse or lowercase
(`" A "` maps to `"A"`, not `"a"`), and an all-whitespace name maps to the
empty key, not to the sentinel `"anonymous"` the claim requires. -/
theorem c9_name_key_counterexample :
    getStudentKey false "tok" " A " ≠ specNameKey " A " ∧
      getStudentKey false "tok" "  " ≠ specNameKey "  " := by
  constructor <;> decide

/-- C9 (amended): for a non-anonymous submission the voter key is the
submitted name trimmed of leading/trailing whitespace only — no internal
whitespace collapsing, no lowercasing — and a name that is empty after
trimming yields the empty key, which `submitVote` rejects with the empty-key
outcome (poll unchanged) rather than mapping it to a sentinel key. -/
theorem c9_name_key (p : Poll) (deviceToken nm : String) (sel : List String)
    (now : Nat) (hopen : isClosed p = false) (hempty : jsTrim nm = "") :
    getStudentKey false deviceToken nm = jsTrim nm ∧
      submitVote p (getStudentKey false deviceToken nm) sel nm now
        = (p, SubmitOutcome.emptyKey) := by
  refine ⟨rfl, ?_⟩
  have hkey : getStudentKey false deviceToken nm = "" := by
    rw [show getStudentKey false deviceToken nm = jsTrim nm from rfl, hempty]
  rw [hkey]
  unfold submitVote
  rw [if_neg (by simp [hopen]), if_pos rfl]

/-- Witness for C9 (amended): an all-whitespace name on an open poll. -/
theorem c9_name_key_witness :
    isClosed pollA = false ∧ jsTrim " " = "" ∧
      (getStudentKey false "tok" " " = jsTrim " " ∧
        submitVote pollA (getStudentKey false "tok" " ") ["A"] " " 3
          = (pollA, SubmitOutcome.emptyKey)) :=
  ⟨by decide, by decide, c9_name_key pollA "tok" " " ["A"] 3 (by decide) (by decide)⟩

/-- C10: on an open poll, for a fresh nonempty key and a nonempty
duplicate-free-id selection drawn from the current options and within the
vote limit, removing the voter right after the accepted submission restores
the original ballot ledger and option vote counts exactly (only the
`updatedAt` stamp differs). -/
theorem c10_submit_remove_roundtrip (p : Poll) (key : String) (sel : List String)
    (nm : String) (now now2 : Nat) (hc : isClosed p = false) (hk : key ≠ "")
    (hnew : hasKey p.ballots key = false) (hs : sel ≠ [])
    (hsub : ∀ i ∈ sel, i ∈ optIds p.options) (hlen : sel.length ≤ p.voteLimit)
    (hnd : (optIds p.options).Nodup) :
    (submitVote p key sel nm now).2 = SubmitOutcome.accepted ∧
      removeVoter (submitVote p key sel nm now).1 key now2
        = { p with updatedAt := now2 } := by
  have hlim : p.voteLimit ≠ 0 := by
    intro h0
    rw [h0] at hlen
    exact hs (List.length_eq_zero.mp (Nat.le_zero.mp hlen))
  have htake : sel.take (if p.voteLimit = 0 then 1 else p.voteLimit) = sel := by
    rw [if_neg hlim]
    exact List.take_of_length_le hlen
  rw [submitVote_accepted_state p key sel nm now hc hk hs hnew, htake]
  refine ⟨rfl, ?_⟩
  have hlooknone : lookupBallot p.ballots key = none := (hasKey_false_iff _ _).mp hnew
  rw [removeVoter_some _ key now2 _
    (lookup_append_self p.ballots key
      ⟨sel, now, if p.anonymous then none
        else if jsTrim nm = "" then none else some (jsTrim nm)⟩ hlooknone)]
  have hballots : (p.ballots ++
      [(key, (⟨sel, now, if p.anonymous then none
        else if jsTrim nm = "" then none else some (jsTrim nm)⟩ : Ballot))]).filter
        (fun kb => kb.1 ≠ key) = p.ballots := by
    rw [List.filter_append, filter_ne_of_lookup_none p.ballots key hlooknone]
    simp [List.filter_cons]
  have hopts : sel.foldl decVote (sel.foldl bumpVote p.options) = p.options := by
    rw [foldl_bump_eq_map sel p.options hnd,
      foldl_dec_eq_map sel _ (by rw [optIds_map_votes]; exact hnd), List.map_map]
    apply (List.map_congr_left ?_).trans (List.map_id p.options)
    intro o _
    show ({ o with votes := o.votes + sel.count o.id - sel.count o.id } : Opt) = o
    rw [Nat.add_sub_cancel]
  rw [hballots, hopts]

/-- Witness for C10: eve votes for `B` and is removed again. -/
theorem c10_submit_remove_roundtrip_witness :
    isClosed pollA = false ∧ hasKey pollA.ballots "eve" = false ∧
      ((submitVote pollA "eve" ["B"] "eve" 4).2 = SubmitOutcome.accepted ∧
        removeVoter (submitVote pollA "eve" ["B"] "eve" 4).1 "eve" 5
          = { pollA with updatedAt := 5 }) :=
  ⟨by decide, by decide,
    c10_submit_remove_roundtrip pollA "eve" ["B"] "eve" 4 5
      (by decide) (by decide) (by decide) (by decide) (by decide) (by decide) (by decide)⟩

end Vote
